import Mathlib

/-!
Verification of the epistemic-aggregation-and-resilience core of the
llm-council-enhanced backend, shallowly embedded in Lean 4.

Python floats are modelled as exact rationals (`ℚ`); wall-clock times as
rationals; SQLite tables as lists of rows; Python `dict`s as association
lists or functions; a Python exception escaping a function is modelled by
`Option`/`Except` results.
-/

/-! ## Kendall's W (src/backend/evaluation.py, compute_kendalls_w) -/

/-- Python's binary `max` on floats, as an executable rational function
(`max a b` returns `a` when the two are equal; the value agrees with
`Max.max` on `ℚ`). -/
def pymax (a b : ℚ) : ℚ := if a < b then b else a

/-- Python's binary `min` on floats (value agrees with `Min.min` on `ℚ`). -/
def pymin (a b : ℚ) : ℚ := if b < a then b else a

theorem pymax_eq_max (a b : ℚ) : pymax a b = max a b := by
  unfold pymax
  rcases lt_or_le a b with h | h
  · simp [h, max_eq_right h.le]
  · simp [not_lt.mpr h, max_eq_left h]

theorem pymin_eq_min (a b : ℚ) : pymin a b = min a b := by
  unfold pymin
  rcases lt_or_le b a with h | h
  · simp [h, min_eq_right h.le]
  · simp [not_lt.mpr h, min_eq_left h]

/-- One-based position of the *last* occurrence of `item` in `ranking`,
mirroring the Python dict comprehension
`ranks = {item: i + 1 for i, item in enumerate(ranking)}`
(a later duplicate overwrites an earlier index). -/
def rankIn (ranking : List String) (item : String) : Option Nat :=
  match ranking with
  | [] => none
  | x :: xs =>
    match rankIn xs item with
    | some k => some (k + 1)
    | none => if x = item then some 1 else none

/-- Rank sum of one item across all judges: each judge contributes the item's
1-based position in its ranking, or `nItems` (the default in
`ranks.get(item, n_items)`) if absent. -/
def rankSumOf (rankings : List (String × List String)) (nItems : Nat) (item : String) : ℚ :=
  (rankings.map (fun jr => (((rankIn jr.2 item).getD nItems : Nat) : ℚ))).sum

/-- Body of `compute_kendalls_w` once the item list (the first judge's
ranking) has been selected. -/
def kendallBody (rankings : List (String × List String)) (items : List String) : ℚ :=
  let nItems := items.length
  let nJudges := rankings.length
  if nItems < 2 then 1
  else
    let rankSums : List ℚ := items.map (rankSumOf rankings nItems)
    let meanRankSum : ℚ := rankSums.sum / (nItems : ℚ)
    let S : ℚ := (rankSums.map (fun rs => (rs - meanRankSum) ^ 2)).sum
    let Smax : ℚ := ((nJudges : ℚ) ^ 2 * ((nItems : ℚ) ^ 3 - (nItems : ℚ))) / 12
    let W : ℚ := if 0 < Smax then S / Smax else 0
    pymin (pymax W 0) 1

/-- `compute_kendalls_w` from src/backend/evaluation.py: rankings is the
judge → ordered item list map (as an association list in Python dict order);
items are taken from the first judge's list. -/
def compute_kendalls_w (rankings : List (String × List String)) : ℚ :=
  if rankings.length < 2 then 1
  else
    match rankings with
    | [] => 1
    | (_, items) :: _ => kendallBody rankings items

theorem kendalls_w_example_1 :
    compute_kendalls_w [("j1", ["a", "b", "c"]), ("j2", ["b", "a"])] = 3 / 4 := by
  simp [compute_kendalls_w, kendallBody, rankSumOf, rankIn, pymin, pymax]
  norm_num

theorem kendalls_w_example_2 :
    compute_kendalls_w [("j2", ["b", "a"]), ("j1", ["a", "b", "c"])] = 0 := by
  simp [compute_kendalls_w, kendallBody, rankSumOf, rankIn, pymin, pymax]
  norm_num

/-- Rank sums depend on the judge association list only up to permutation. -/
theorem rankSumOf_perm {R1 R2 : List (String × List String)}
    (h : R1.Perm R2) (n : Nat) (item : String) :
    rankSumOf R1 n item = rankSumOf R2 n item :=
  (h.map _).sum_eq

/-- Sum of squared deviations from the mean is invariant under permutation
of the underlying list. -/
theorem devsum_perm {l1 l2 : List ℚ} (h : l1.Perm l2) (n : ℚ) :
    (l1.map (fun rs => (rs - l1.sum / n) ^ 2)).sum
      = (l2.map (fun rs => (rs - l2.sum / n) ^ 2)).sum := by
  rw [h.sum_eq]
  exact (h.map _).sum_eq

theorem kendallBody_perm {R1 R2 : List (String × List String)}
    {items1 items2 : List String} (hR : R1.Perm R2) (hI : items1.Perm items2) :
    kendallBody R1 items1 = kendallBody R2 items2 := by
  have hn : items1.length = items2.length := hI.length_eq
  have hj : R1.length = R2.length := hR.length_eq
  have hfun : rankSumOf R1 items2.length = rankSumOf R2 items2.length := by
    funext item
    exact rankSumOf_perm hR _ item
  have hmaps : (items1.map (rankSumOf R2 items2.length)).Perm
      (items2.map (rankSumOf R2 items2.length)) := hI.map _
  simp only [kendallBody, hn, hj, hfun]
  rw [devsum_perm hmaps]

theorem kendallBody_bounds (R : List (String × List String)) (items : List String) :
    0 ≤ kendallBody R items ∧ kendallBody R items ≤ 1 := by
  unfold kendallBody
  dsimp only
  split
  · norm_num
  · rw [pymin_eq_min, pymax_eq_max]
    exact ⟨le_min (le_max_right _ _) zero_le_one, min_le_right _ _⟩

theorem compute_kendalls_w_bounds (R : List (String × List String)) :
    0 ≤ compute_kendalls_w R ∧ compute_kendalls_w R ≤ 1 := by
  unfold compute_kendalls_w
  split
  · norm_num
  · split
    · norm_num
    · exact kendallBody_bounds _ _

/-- C1 (counterexample): `compute_kendalls_w` is NOT invariant under
permutation of the judge order.  The Python code takes the item list from
the first judge of the dict, so when judges rank different item lists the
value changes with the judge order: for `{j1: [a,b,c], j2: [b,a]}` it is
3/4, but for `{j2: [b,a], j1: [a,b,c]}` it is 0. -/
theorem kendalls_w_judge_perm_counterexample :
    List.Perm [("j1", ["a", "b", "c"]), ("j2", ["b", "a"])]
        [("j2", ["b", "a"]), ("j1", ["a", "b", "c"])]
      ∧ compute_kendalls_w [("j1", ["a", "b", "c"]), ("j2", ["b", "a"])]
          ≠ compute_kendalls_w [("j2", ["b", "a"]), ("j1", ["a", "b", "c"])] := by
  constructor
  · exact List.Perm.swap _ _ _
  · rw [kendalls_w_example_1, kendalls_w_example_2]
    norm_num

/-- C1 (amended): `compute_kendalls_w` is invariant under permutation of the
judge order provided every judge ranks the same item collection (each
ranking is a permutation of one common list), and the returned value always
lies in [0,1] (for every input, not just these). -/
theorem kendalls_w_judge_perm_invariant_on_common_items
    (R1 R2 : List (String × List String)) (L : List String)
    (hperm : R1.Perm R2) (hcommon : ∀ p ∈ R1, List.Perm p.2 L) :
    compute_kendalls_w R1 = compute_kendalls_w R2
      ∧ ∀ R, 0 ≤ compute_kendalls_w R ∧ compute_kendalls_w R ≤ 1 := by
  refine ⟨?_, compute_kendalls_w_bounds⟩
  have hlen : R1.length = R2.length := hperm.length_eq
  unfold compute_kendalls_w
  rw [hlen]
  split
  · rfl
  · rename_i hge
    match hR1 : R1, hR2 : R2 with
    | [], _ =>
      subst hR1
      simp at hlen
      rw [← hlen] at hge
      simp at hge
    | p1 :: t1, [] =>
      subst hR2
      simp at hge
    | p1 :: t1, p2 :: t2 =>
      have hp1 : List.Perm p1.2 L := hcommon p1 (List.mem_cons_self _ _)
      have hp2 : List.Perm p2.2 L := by
        have hm : p2 ∈ p1 :: t1 := hperm.mem_iff.mpr (List.mem_cons_self _ _)
        exact hcommon p2 hm
      exact kendallBody_perm hperm (hp1.trans hp2.symm)

/-- C1 witness: the amended invariance applied to two concrete judge maps
over a common item set, plus the bound at a concrete input. -/
theorem kendalls_w_judge_perm_invariant_witness :
    compute_kendalls_w [("j1", ["a", "b"]), ("j2", ["b", "a"])]
        = compute_kendalls_w [("j2", ["b", "a"]), ("j1", ["a", "b"])]
      ∧ (0 ≤ compute_kendalls_w [("j1", ["a", "b"]), ("j2", ["b", "a"])]
          ∧ compute_kendalls_w [("j1", ["a", "b"]), ("j2", ["b", "a"])] ≤ 1) := by
  have h := kendalls_w_judge_perm_invariant_on_common_items
    [("j1", ["a", "b"]), ("j2", ["b", "a"])] [("j2", ["b", "a"]), ("j1", ["a", "b"])]
    ["a", "b"] (List.Perm.swap _ _ _) (by decide)
  exact ⟨h.1, h.2 _⟩

/-- C8: with fewer than 2 judges, or fewer than 2 items in the first
judge's list, `compute_kendalls_w` returns exactly 1. -/
theorem kendalls_w_degenerate_eq_one (rankings : List (String × List String))
    (h : rankings.length < 2 ∨ (rankings.headI).2.length < 2) :
    compute_kendalls_w rankings = 1 := by
  unfold compute_kendalls_w
  split
  · rfl
  · rename_i hge
    split
    · rfl
    · rename_i p rest
      rcases h with h | h
      · exact absurd h hge
      · simp only [List.headI] at h
        unfold kendallBody
        rw [if_pos h]

/-- C8 witness: one judge (any items) and two judges with a single item. -/
theorem kendalls_w_degenerate_eq_one_witness :
    compute_kendalls_w [("j1", ["a", "b", "c"])] = 1
      ∧ compute_kendalls_w [("j1", ["a"]), ("j2", ["a"])] = 1 :=
  ⟨kendalls_w_degenerate_eq_one _ (by decide),
   kendalls_w_degenerate_eq_one _ (by decide)⟩

/-! ## Claim agreement (src/backend/claims.py, compute_claim_agreement) -/

/-- `ExtractedClaim` from src/backend/schemas.py. -/
structure ExtractedClaim where
  claim : String
  supporting_models : List String
  contradicting_models : List String
  confidence : ℚ
  verification_status : String
  source : Option String
deriving DecidableEq

/-- Per-claim contribution to the agreement list: claims with at least one
vote contribute supports/(supports+contradicts), others nothing. -/
def agreeScoreOf (c : ExtractedClaim) : Option ℚ :=
  let nSupport : Nat := c.supporting_models.length
  let nContradict : Nat := c.contradicting_models.length
  let total : Nat := nSupport + nContradict
  if 0 < total then some ((nSupport : ℚ) / (total : ℚ)) else none

/-- `compute_claim_agreement` from src/backend/claims.py. -/
def compute_claim_agreement (claims : List ExtractedClaim) : ℚ :=
  if claims.isEmpty then 1
  else
    let agreement_scores := claims.filterMap agreeScoreOf
    if agreement_scores.isEmpty then 1
    else agreement_scores.sum / (agreement_scores.length : ℚ)

/-- The claims that received at least one supporting or contradicting entry
(the spec's "claims with ≥ 1 vote"). -/
def votedClaims (claims : List ExtractedClaim) : List ExtractedClaim :=
  claims.filter (fun c =>
    0 < c.supporting_models.length + c.contradicting_models.length)

/-- Spec-side per-claim agreement ratio: supports/(supports+contradicts). -/
def claimRatio (c : ExtractedClaim) : ℚ :=
  (c.supporting_models.length : ℚ)
    / (((c.supporting_models.length + c.contradicting_models.length) : Nat) : ℚ)

theorem filterMap_agree_eq (claims : List ExtractedClaim) :
    claims.filterMap agreeScoreOf = (votedClaims claims).map claimRatio := by
  induction claims with
  | nil => rfl
  | cons c cs ih =>
    simp only [List.filterMap_cons, votedClaims, List.filter_cons]
    by_cases h : 0 < c.supporting_models.length + c.contradicting_models.length
    · have h1 : agreeScoreOf c = some (claimRatio c) := by
        simp [agreeScoreOf, claimRatio, h]
      rw [h1, if_pos (by simpa using h), List.map_cons]
      exact congrArg _ ih
    · have h1 : agreeScoreOf c = none := by
        simp [agreeScoreOf, h]
      rw [h1, if_neg (by simpa using h)]
      exact ih

/-- C9: when at least one claim has a vote, `compute_claim_agreement` equals
the mean of supports/(supports+contradicts) over exactly the voted claims;
and the empty claim list yields 1.0. -/
theorem claim_agreement_is_mean_over_voted (claims : List ExtractedClaim)
    (h : votedClaims claims ≠ []) :
    compute_claim_agreement claims
        = ((votedClaims claims).map claimRatio).sum
            / ((votedClaims claims).length : ℚ)
      ∧ compute_claim_agreement [] = 1 := by
  refine ⟨?_, rfl⟩
  have hcl : claims ≠ [] := by
    intro hnil
    exact h (by simp [votedClaims, hnil])
  have hne : ¬(votedClaims claims).map claimRatio = [] := by
    simpa using h
  unfold compute_claim_agreement
  rw [if_neg (by simpa [List.isEmpty_iff] using hcl)]
  rw [filterMap_agree_eq]
  rw [if_neg (by simpa [List.isEmpty_iff] using hne)]
  simp

/-- C9 witness: one claim with one supporter and one contradictor gives the
voted-claims mean, and the empty list gives 1. -/
theorem claim_agreement_is_mean_over_voted_witness :
    compute_claim_agreement
        [⟨"c1", ["Response A"], ["Response B"], 1, "unverified", none⟩]
      = ((votedClaims [⟨"c1", ["Response A"], ["Response B"], 1, "unverified", none⟩]).map
          claimRatio).sum
        / ((votedClaims
            [⟨"c1", ["Response A"], ["Response B"], 1, "unverified", none⟩]).length : ℚ)
      ∧ compute_claim_agreement [] = 1 :=
  claim_agreement_is_mean_over_voted _ (by decide)

/-! ## Resilient fan-out (src/backend/resilience.py, resilient_parallel_query)

Each worker's already-wrapped outcome (after `query_with_timeout`, which
converts every failure into a `ModelQueryError`) is modelled by an
`Except ModelQueryErr α` assigned to its model id.  `asyncio.gather`
returns outcomes in input order, which the zip in the source preserves. -/

/-- `ModelQueryError` from src/backend/resilience.py (the fields its `str()`
uses). -/
structure ModelQueryErr where
  model : String
  message : String
deriving DecidableEq

/-- `str(ModelQueryError)` is `f"{model}: {message}"`. -/
def errStr (e : ModelQueryErr) : String := e.model ++ ": " ++ e.message

/-- `InsufficientResponsesError` from src/backend/resilience.py. -/
structure InsufficientResponses where
  required : Nat
  received : Nat
  errors : List String
deriving DecidableEq

/-- The source's accumulation loop over `zip(models, results)`: appends to
`successful`, `failed` and `errors` in input order. -/
def gatherLoop {α : Type} : List (String × Except ModelQueryErr α) →
    List α × List String × List String
  | [] => ([], [], [])
  | (_, .ok v) :: rest =>
    let acc := gatherLoop rest
    (v :: acc.1, acc.2.1, acc.2.2)
  | (m, .error e) :: rest =>
    let acc := gatherLoop rest
    (acc.1, m :: acc.2.1, errStr e :: acc.2.2)

/-- `resilient_parallel_query` from src/backend/resilience.py, given the
per-model outcomes `outcome`. -/
def resilient_parallel_query {α : Type} (outcome : String → Except ModelQueryErr α)
    (models : List String) (min_required : Nat) ( allow_partial : Bool) :
    Except InsufficientResponses (List α × List String) :=
  let results := models.map outcome
  let acc := gatherLoop (models.zip results)
  let successful := acc.1
  let failed := acc.2.1
  let errors := acc.2.2
  if successful.length < min_required ∧ allow_partial = false then
    .error ⟨min_required, successful.length, errors⟩
  else .ok (successful, failed)

/-- Declarative successes: the ok values of the outcomes, in input order. -/
def fanoutSuccesses {α : Type} (outcome : String → Except ModelQueryErr α)
    (models : List String) : List α :=
  models.filterMap (fun m => (outcome m).toOption)

/-- Declarative failed ids: the models whose outcome erred, in input order. -/
def fanoutFailed {α : Type} (outcome : String → Except ModelQueryErr α)
    (models : List String) : List String :=
  models.filter (fun m => !(outcome m).toBool)

/-- Declarative error messages of the failed workers, in input order. -/
def fanoutErrors {α : Type} (outcome : String → Except ModelQueryErr α)
    (models : List String) : List String :=
  models.filterMap (fun m => match outcome m with
    | .error e => some (errStr e)
    | .ok _ => none)

theorem gatherLoop_cons_ok {α : Type} (m : String) (v : α)
    (rest : List (String × Except ModelQueryErr α)) :
    gatherLoop ((m, Except.ok v) :: rest)
      = (v :: (gatherLoop rest).1, (gatherLoop rest).2.1, (gatherLoop rest).2.2) := rfl

theorem gatherLoop_cons_error {α : Type} (m : String) (e : ModelQueryErr)
    (rest : List (String × Except ModelQueryErr α)) :
    gatherLoop ((m, Except.error e) :: rest)
      = ((gatherLoop rest).1, m :: (gatherLoop rest).2.1,
          errStr e :: (gatherLoop rest).2.2) := rfl

theorem gatherLoop_eq {α : Type} (outcome : String → Except ModelQueryErr α)
    (models : List String) :
    gatherLoop (models.zip (models.map outcome))
      = (fanoutSuccesses outcome models, fanoutFailed outcome models,
          fanoutErrors outcome models) := by
  induction models with
  | nil => rfl
  | cons m ms ih =>
    rw [List.map_cons, List.zip_cons_cons]
    cases h : outcome m with
    | ok v =>
      rw [gatherLoop_cons_ok, ih]
      simp [fanoutSuccesses, fanoutFailed, fanoutErrors, List.filterMap_cons,
        List.filter_cons, h, Except.toOption, Except.toBool]
    | error e =>
      rw [gatherLoop_cons_error, ih]
      simp [fanoutSuccesses, fanoutFailed, fanoutErrors, List.filterMap_cons,
        List.filter_cons, h, Except.toOption, Except.toBool]

/-- C4: when fewer than `min_required` workers succeed and partial results
are disallowed, the fan-out raises `InsufficientResponses` carrying the
required count, the received count and the error strings; in every other
case it returns the successes (in input order) and the failed worker ids
without raising. -/
theorem resilient_parallel_query_quorum {α : Type}
    (outcome : String → Except ModelQueryErr α) (models : List String)
    (min_required : Nat) ( allow_partial : Bool) :
    ((fanoutSuccesses outcome models).length < min_required ∧ allow_partial = false →
      resilient_parallel_query outcome models min_required allow_partial
        = .error ⟨min_required, (fanoutSuccesses outcome models).length,
            fanoutErrors outcome models⟩)
    ∧ (¬((fanoutSuccesses outcome models).length < min_required ∧ allow_partial = false) →
      resilient_parallel_query outcome models min_required allow_partial
        = .ok (fanoutSuccesses outcome models, fanoutFailed outcome models)) := by
  unfold resilient_parallel_query
  dsimp only
  rw [gatherLoop_eq]
  constructor
  · intro h
    rw [if_pos h]
  · intro h
    rw [if_neg h]

/-- C4 witness: the spec's fan-out example with four workers where w1 and w3
time out.  With `min_required = 2` it returns `(["r2", "r4"], ["w1", "w3"])`;
with `min_required = 3, allow_partial = false` it raises
`InsufficientResponses(3, 2, errors)`. -/
theorem resilient_parallel_query_quorum_witness :
    (resilient_parallel_query
        (fun m => if m = "w2" then .ok "r2" else if m = "w4" then .ok "r4"
          else .error ⟨m, "Timeout"⟩)
        ["w1", "w2", "w3", "w4"] 2 true
      = .ok (["r2", "r4"], ["w1", "w3"]))
    ∧ (resilient_parallel_query
        (fun m => if m = "w2" then .ok "r2" else if m = "w4" then .ok "r4"
          else .error ⟨m, "Timeout"⟩)
        ["w1", "w2", "w3", "w4"] 3 false
      = .error ⟨3, 2, ["w1: Timeout", "w3: Timeout"]⟩) := by
  constructor
  · have h := (resilient_parallel_query_quorum
      (fun m => if m = "w2" then .ok ("r2" : String) else if m = "w4" then .ok "r4"
        else .error ⟨m, "Timeout"⟩) ["w1", "w2", "w3", "w4"] 2 true).2 (by decide)
    rw [h]
    rfl
  · have h := (resilient_parallel_query_quorum
      (fun m => if m = "w2" then .ok ("r2" : String) else if m = "w4" then .ok "r4"
        else .error ⟨m, "Timeout"⟩) ["w1", "w2", "w3", "w4"] 3 false).1 (by decide)
    rw [h]
    rfl

/-! ## Retry wrapper (src/backend/resilience.py, with_retry)

The zero-argument operation is modelled by the outcome of each attempt
(`op i` is what the i-th invocation returns or raises); the trace records
the final outcome, the sleeps performed between attempts, and how many
invocations were made. -/

structure RetryTrace (α ε : Type) where
  result : Except ε α
  sleeps : List ℚ
  attempts : Nat

/-- `base_delay * (2 ** attempt if exponential else 1)`. -/
def retryDelay (baseD : ℚ) (expo : Bool) (attempt : Nat) : ℚ :=
  baseD * (if expo then (2 : ℚ) ^ attempt else 1)

/-- The retry loop from attempt `i` with `rem` attempts still allowed after
the current one.  On the last allowed attempt the operation's outcome is
returned as is (a final error is re-raised). -/
def withRetryGo {α ε : Type} (op : Nat → Except ε α) (baseD : ℚ) (expo : Bool) :
    Nat → Nat → RetryTrace α ε
  | i, 0 => { result := op i, sleeps := [], attempts := 1 }
  | i, rem + 1 =>
    match op i with
    | .ok v => { result := .ok v, sleeps := [], attempts := 1 }
    | .error _ =>
      let t := withRetryGo op baseD expo (i + 1) rem
      { result := t.result, sleeps := retryDelay baseD expo i :: t.sleeps,
        attempts := t.attempts + 1 }

/-- `with_retry` from src/backend/resilience.py. -/
def with_retry {α ε : Type} (op : Nat → Except ε α) (max_retries : Nat)
    (baseD : ℚ) (expo : Bool) : RetryTrace α ε :=
  withRetryGo op baseD expo 0 max_retries

theorem withRetryGo_attempts_pos {α ε : Type} (op : Nat → Except ε α)
    (baseD : ℚ) (expo : Bool) (rem i : Nat) :
    1 ≤ (withRetryGo op baseD expo i rem).attempts := by
  cases rem with
  | zero => exact le_refl _
  | succ rem =>
    unfold withRetryGo
    cases op i with
    | ok v => exact le_refl _
    | error e => simp

theorem withRetryGo_spec {α ε : Type} (op : Nat → Except ε α)
    (baseD : ℚ) (expo : Bool) (rem i : Nat) :
    (withRetryGo op baseD expo i rem).attempts ≤ rem + 1
      ∧ (withRetryGo op baseD expo i rem).sleeps
          = (List.range ((withRetryGo op baseD expo i rem).attempts - 1)).map
              (fun k => retryDelay baseD expo (i + k))
      ∧ ((∀ j, i ≤ j → j ≤ i + rem → (op j).toBool = false) →
          (withRetryGo op baseD expo i rem).result = op (i + rem)
            ∧ (withRetryGo op baseD expo i rem).attempts = rem + 1) := by
  induction rem generalizing i with
  | zero =>
    exact ⟨le_refl _, rfl, fun _ => ⟨rfl, rfl⟩⟩
  | succ rem ih =>
    unfold withRetryGo
    cases h : op i with
    | ok v =>
      dsimp only
      refine ⟨by omega, rfl, fun hall => ?_⟩
      have hx := hall i (le_refl i) (Nat.le_add_right _ _)
      rw [h] at hx
      simp [Except.toBool] at hx
    | error e =>
      obtain ⟨ih1, ih2, ih3⟩ := ih (i + 1)
      dsimp only
      have hpos := withRetryGo_attempts_pos op baseD expo rem (i + 1)
      refine ⟨by omega, ?_, fun hall => ?_⟩
      · rcases Nat.exists_eq_succ_of_ne_zero (Nat.one_le_iff_ne_zero.mp hpos) with ⟨n, hn⟩
        have hfun2 : (fun k => retryDelay baseD expo (i + 1 + k))
            = fun k => retryDelay baseD expo (i + Nat.succ k) := by
          funext k
          congr 1
          omega
        rw [ih2, hn, Nat.succ_sub_one, Nat.add_sub_cancel,
          List.range_succ_eq_map, List.map_cons, List.map_map]
        simp only [Function.comp_def, Nat.add_zero]
        rw [hfun2]
      · have hall2 : ∀ j, i + 1 ≤ j → j ≤ i + 1 + rem → (op j).toBool = false := by
          intro j hj1 hj2
          exact hall j (by omega) (by omega)
        obtain ⟨hr, ha⟩ := ih3 hall2
        constructor
        · rw [hr]
          congr 1
          omega
        · omega

/-- C7: `with_retry` makes at most `max_retries` re-invocations beyond the
initial attempt; between attempts it sleeps `base_delay * 2^attempt` when
exponential and `base_delay` otherwise; and when every attempt fails it
performs exactly `max_retries + 1` invocations and re-raises the last
error (the outcome of attempt `max_retries`). -/
theorem with_retry_spec {α ε : Type} (op : Nat → Except ε α) (max_retries : Nat)
    (baseD : ℚ) (expo : Bool) :
    (with_retry op max_retries baseD expo).attempts ≤ max_retries + 1
      ∧ (with_retry op max_retries baseD expo).sleeps
          = (List.range ((with_retry op max_retries baseD expo).attempts - 1)).map
              (retryDelay baseD expo)
      ∧ ((∀ i, i ≤ max_retries → (op i).toBool = false) →
          (with_retry op max_retries baseD expo).result = op max_retries
            ∧ (with_retry op max_retries baseD expo).attempts = max_retries + 1) := by
  obtain ⟨h1, h2, h3⟩ := withRetryGo_spec op baseD expo max_retries 0
  have hfun : (fun k => retryDelay baseD expo (0 + k)) = retryDelay baseD expo := by
    funext k
    rw [Nat.zero_add]
  refine ⟨h1, ?_, fun hall => ?_⟩
  · unfold with_retry
    rw [h2, hfun]
  · have hall0 : ∀ j, 0 ≤ j → j ≤ 0 + max_retries → (op j).toBool = false := by
      intro j _ hj
      exact hall j (by omega)
    obtain ⟨hr, ha⟩ := h3 hall0
    unfold with_retry
    rw [hr, ha]
    exact ⟨congrArg op (Nat.zero_add _), rfl⟩

/-- C7 witness: an operation that always raises, `max_retries = 2`,
`base_delay = 1`, exponential backoff: three invocations, sleeps `[1, 2]`,
and the last error is re-raised. -/
theorem with_retry_spec_witness :
    (with_retry (fun _ => (Except.error "boom" : Except String String)) 2 1 true).attempts = 3
      ∧ (with_retry (fun _ => (Except.error "boom" : Except String String)) 2 1 true).sleeps
          = [1, 2]
      ∧ (with_retry (fun _ => (Except.error "boom" : Except String String)) 2 1 true).result
          = Except.error "boom" := by
  obtain ⟨h1, h2, h3⟩ := with_retry_spec
    (fun _ => (Except.error "boom" : Except String String)) 2 1 true
  obtain ⟨hr, ha⟩ := h3 (fun i _ => rfl)
  refine ⟨ha, ?_, hr⟩
  rw [h2, ha]
  show List.map (retryDelay 1 true) [0, 1] = [1, 2]
  simp [retryDelay]

/-! ## Circuit breaker (src/backend/resilience.py, CircuitBreaker)

`time.time()` is modelled by an explicit rational `now` passed to each
operation; `is_open` mutates state on expiry, so it returns the flag
together with the successor state. -/

/-- The breaker's mutable dictionaries. -/
structure CBState where
  failures : String → Nat
  openUntil : String → Option ℚ

namespace CircuitBreaker

/-- The fresh breaker: empty dicts (`failures.get(model, 0)` defaults 0). -/
def init : CBState := { failures := fun _ => 0, openUntil := fun _ => none }

/-- `record_failure` at wall-clock time `now`. -/
def record_failure (failure_threshold : Nat) (recovery_timeout : ℚ)
    (now : ℚ) (model : String) (s : CBState) : CBState :=
  let f := s.failures model + 1
  let failures := fun x => if x = model then f else s.failures x
  if failure_threshold ≤ f then
    { failures := failures,
      openUntil := fun x => if x = model then some (now + recovery_timeout) else s.openUntil x }
  else { failures := failures, openUntil := s.openUntil }

/-- `record_success`. -/
def record_success (model : String) (s : CBState) : CBState :=
  { s with failures := fun x => if x = model then 0 else s.failures x }

/-- `is_open` at wall-clock time `now`: when the recovery period has passed
it deletes the open-until entry, resets the failure counter and reports
closed. -/
def is_open (now : ℚ) (model : String) (s : CBState) : Bool × CBState :=
  match s.openUntil model with
  | some t =>
    if t ≤ now then
      (false,
        { failures := fun x => if x = model then 0 else s.failures x,
          openUntil := fun x => if x = model then none else s.openUntil x })
    else (true, s)
  | none => (false, s)

/-- Folding `record_failure` over a list of times adds its length to the
model's failure count, and once the count reaches the threshold the last
call stamps `openUntil`. -/
theorem record_failure_fold (failure_threshold : Nat) (recovery_timeout : ℚ)
    (model : String) (s : CBState) (ts : List ℚ) (tlast : ℚ) :
    ((ts ++ [tlast]).foldl
        (fun st t => record_failure failure_threshold recovery_timeout t model st) s).failures
          model
        = s.failures model + ts.length + 1
      ∧ (failure_threshold ≤ s.failures model + ts.length + 1 →
          ((ts ++ [tlast]).foldl
              (fun st t => record_failure failure_threshold recovery_timeout t model st)
              s).openUntil model
            = some (tlast + recovery_timeout)) := by
  induction ts generalizing s with
  | nil =>
    simp only [List.nil_append, List.foldl_cons, List.foldl_nil, List.length_nil]
    unfold record_failure
    by_cases h : failure_threshold ≤ s.failures model + 1
    · rw [if_pos h]
      exact ⟨by simp, fun _ => by simp⟩
    · rw [if_neg h]
      exact ⟨by simp, fun hc => absurd (by simpa using hc) h⟩
  | cons t0 ts ih =>
    simp only [List.cons_append, List.foldl_cons, List.length_cons]
    have hstep : (record_failure failure_threshold recovery_timeout t0 model s).failures model
        = s.failures model + 1 := by
      unfold record_failure
      by_cases h : failure_threshold ≤ s.failures model + 1
      · rw [if_pos h]
        simp
      · rw [if_neg h]
        simp
    obtain ⟨ih1, ih2⟩ := ih (record_failure failure_threshold recovery_timeout t0 model s)
    rw [hstep] at ih1 ih2
    exact ⟨by rw [ih1]; omega, fun hc => ih2 (by omega)⟩

end CircuitBreaker

/-- C5: starting from any breaker state, after `failure_threshold` (≥ 1)
consecutive `record_failure` calls for model M (the last at time `tlast`)
with no intervening success, `is_open(M)` is true at any time before
`tlast + recovery_timeout`; and at any time from `tlast + recovery_timeout`
on, `is_open(M)` is false and M's failure counter is reset to 0. -/
theorem circuit_breaker_opens_and_recovers (failure_threshold : Nat)
    (recovery_timeout : ℚ) (model : String) (s : CBState)
    (ts : List ℚ) (tlast : ℚ) (now : ℚ)
    (hlen : (ts ++ [tlast]).length = failure_threshold) :
    (now < tlast + recovery_timeout →
      (CircuitBreaker.is_open now model
          ((ts ++ [tlast]).foldl
            (fun st t =>
              CircuitBreaker.record_failure failure_threshold recovery_timeout t model st)
            s)).1 = true)
    ∧ (tlast + recovery_timeout ≤ now →
        (CircuitBreaker.is_open now model
            ((ts ++ [tlast]).foldl
              (fun st t =>
                CircuitBreaker.record_failure failure_threshold recovery_timeout t model st)
              s)).1 = false
          ∧ ((CircuitBreaker.is_open now model
              ((ts ++ [tlast]).foldl
                (fun st t =>
                  CircuitBreaker.record_failure failure_threshold recovery_timeout t model st)
                s)).2).failures model = 0) := by
  obtain ⟨h1, h2⟩ := CircuitBreaker.record_failure_fold failure_threshold recovery_timeout
    model s ts tlast
  have hth : failure_threshold ≤ s.failures model + ts.length + 1 := by
    simp only [List.length_append, List.length_cons, List.length_nil] at hlen
    omega
  have hopen := h2 hth
  constructor
  · intro hnow
    unfold CircuitBreaker.is_open
    rw [hopen]
    dsimp only
    rw [if_neg (not_le.mpr hnow)]
  · intro hnow
    unfold CircuitBreaker.is_open
    rw [hopen]
    dsimp only
    rw [if_pos hnow]
    exact ⟨rfl, by simp⟩

/-- C5 witness: threshold 3, recovery 60; three failures at times 0, 1, 2
starting from the fresh breaker.  At time 10 the circuit is open; at time
62 it is closed and the counter is reset. -/
theorem circuit_breaker_opens_and_recovers_witness :
    ((CircuitBreaker.is_open 10 "m"
        (([0, 1] ++ [2]).foldl
          (fun st t => CircuitBreaker.record_failure 3 60 t "m" st)
          CircuitBreaker.init)).1 = true)
    ∧ ((CircuitBreaker.is_open 62 "m"
        (([0, 1] ++ [2]).foldl
          (fun st t => CircuitBreaker.record_failure 3 60 t "m" st)
          CircuitBreaker.init)).1 = false
      ∧ ((CircuitBreaker.is_open 62 "m"
          (([0, 1] ++ [2]).foldl
            (fun st t => CircuitBreaker.record_failure 3 60 t "m" st)
            CircuitBreaker.init)).2).failures "m" = 0) :=
  ⟨(circuit_breaker_opens_and_recovers 3 60 "m" CircuitBreaker.init [0, 1] 2 10 rfl).1
      (by norm_num),
   (circuit_breaker_opens_and_recovers 3 60 "m" CircuitBreaker.init [0, 1] 2 62 rfl).2
      (by norm_num)⟩

/-! ## Query cache (src/backend/resilience.py, QueryCache)

The sha256-based `_cache_key` is an external library call, modelled as a
parameter `ckey` (the proofs hold for any key function, in particular for
the real digest).  Insertion time stamps come from `time.time()`, modelled
by explicit rationals. -/

/-- The cache dictionary: key → (value, insertion timestamp). -/
structure CacheState (α : Type) where
  cache : String → Option (α × ℚ)

namespace QueryCache

/-- The fresh cache. -/
def empty {α : Type} : CacheState α := { cache := fun _ => none }

/-- `QueryCache.set` at time `now`. -/
def set {α : Type} (ckey : String → String → String) (query model : String)
    (value : α) (now : ℚ) (s : CacheState α) : CacheState α :=
  { cache := fun x => if x = ckey query model then some (value, now) else s.cache x }

/-- `QueryCache.get` at time `now` with time-to-live `ttl`: expired entries
are deleted lazily and reported absent. -/
def get {α : Type} (ckey : String → String → String) (ttl : ℚ)
    (query model : String) (now : ℚ) (s : CacheState α) : Option α × CacheState α :=
  match s.cache (ckey query model) with
  | some (value, timestamp) =>
    if now - timestamp < ttl then (some value, s)
    else (none, { cache := fun x => if x = ckey query model then none else s.cache x })
  | none => (none, s)

end QueryCache

/-- C6: `QueryCache.get` reports a key absent (a) after any sequence of
`set` operations none of which wrote this key (in particular when no set
was ever performed for it), and (b) whenever the stored entry's TTL has
elapsed (`now - timestamp ≥ ttl`), even though the entry is still
physically present (unswept). -/
theorem query_cache_get_absent {α : Type} (ckey : String → String → String)
    (ttl : ℚ) (query model : String)
    (ops : List (String × String × α × ℚ)) (now : ℚ)
    (hops : ∀ op ∈ ops, ckey op.1 op.2.1 ≠ ckey query model) :
    (QueryCache.get ckey ttl query model now
        (ops.foldl (fun st op => QueryCache.set ckey op.1 op.2.1 op.2.2.1 op.2.2.2 st)
          QueryCache.empty)).1 = none
    ∧ ∀ (s : CacheState α) (value : α) (timestamp : ℚ),
        s.cache (ckey query model) = some (value, timestamp) →
        ttl ≤ now - timestamp →
        (QueryCache.get ckey ttl query model now s).1 = none := by
  constructor
  · have habsent : ∀ (s : CacheState α), s.cache (ckey query model) = none →
        (ops.foldl (fun st op => QueryCache.set ckey op.1 op.2.1 op.2.2.1 op.2.2.2 st)
            s).cache (ckey query model) = none := by
      induction ops with
      | nil => exact fun s hs => hs
      | cons op rest ih =>
        intro s hs
        have hop : ckey op.1 op.2.1 ≠ ckey query model :=
          hops op (List.mem_cons_self _ _)
        refine ih (fun o ho => hops o (List.mem_cons_of_mem _ ho)) _ ?_
        unfold QueryCache.set
        simp only []
        rw [if_neg (fun hx => hop hx.symm)]
        exact hs
    have h0 := habsent QueryCache.empty rfl
    unfold QueryCache.get
    rw [h0]
  · intro s value timestamp hstored hexp
    unfold QueryCache.get
    rw [hstored]
    dsimp only
    rw [if_neg (not_lt.mpr (by linarith))]

/-- C6 witness: with the key function `model ++ ":" ++ query` (the string the
source hashes), a set on a different key leaves `get` absent, and a stored
entry aged past the TTL is reported absent unswept. -/
theorem query_cache_get_absent_witness :
    (QueryCache.get (fun q m => m ++ ":" ++ q) 5 "q" "m" 3
        ([(("other", "m2", "v2", (0 : ℚ)) : String × String × String × ℚ)].foldl
          (fun st op => QueryCache.set (fun q m => m ++ ":" ++ q) op.1 op.2.1 op.2.2.1 op.2.2.2 st)
          QueryCache.empty)).1 = none
    ∧ (QueryCache.get (fun q m => m ++ ":" ++ q) 5 "q" "m" 5
        (QueryCache.set (fun q m => m ++ ":" ++ q) "q" "m" "v" 0 QueryCache.empty)).1
      = none := by
  constructor
  · exact (query_cache_get_absent (fun q m => m ++ ":" ++ q) 5 "q" "m"
      [("other", "m2", "v2", (0 : ℚ))] 3 (by decide)).1
  · exact (query_cache_get_absent (fun q m => m ++ ":" ++ q) 5 "q" "m"
      ([] : List (String × String × String × ℚ)) 5 (by simp)).2
      (QueryCache.set (fun q m => m ++ ":" ++ q) "q" "m" "v" 0 QueryCache.empty)
      "v" 0 (by rfl) (by norm_num)

/-! ## Calibration tracking (src/backend/calibration.py, CalibrationTracker)

The sqlite `predictions` table is a list of rows; `INSERT OR REPLACE` under
the `UNIQUE(model, query_hash)` constraint deletes the conflicting row and
appends the fresh one (whose `ground_truth`/`correct` columns, absent from
the insert's column list, are NULL).  The sha256-based 16-hex query hash is
an external library call, modelled as a parameter `qhash`. -/

/-- One row of the `predictions` table. -/
structure PredRow where
  model : String
  queryHash : String
  stated_confidence : ℚ
  prediction : String
  ground_truth : Option String
  correct : Option Bool
  timestamp : String
deriving DecidableEq

/-- Substring test on character lists (Python's `in` on strings): the empty
needle is contained in everything. -/
def listContains (needle : List Char) : List Char → Bool
  | [] => needle.isEmpty
  | c :: t => needle.isPrefixOf (c :: t) || listContains needle t

/-- `needle in hay` for strings. -/
def strContains (hay needle : String) : Bool := listContains needle.data hay.data

/-- Python's `s.split()[0] if s else ""`: first whitespace-separated token. -/
def firstToken (s : String) : String :=
  ((s.split (fun c => c.isWhitespace)).filter (fun w => !(w = ""))).headD ""

/-- `CalibrationTracker._check_correctness`: lenient match of prediction
against ground truth (exact, containment either way, or shared first token
longer than 2 characters). -/
def check_correctness (prediction ground_truth : String) : Bool :=
  let pred_lower := prediction.toLower.trim
  let truth_lower := ground_truth.toLower.trim
  if pred_lower = truth_lower then true
  else if strContains pred_lower truth_lower || strContains truth_lower pred_lower then true
  else
    let pred_first := firstToken pred_lower
    let truth_first := firstToken truth_lower
    if pred_first = truth_first ∧ 2 < truth_first.length then true
    else false

namespace CalibrationTracker

/-- Does a row carry the upsert key `(model, query-hash)`? -/
def keyed (model qh : String) (r : PredRow) : Bool :=
  decide (r.model = model ∧ r.queryHash = qh)

/-- `record_prediction`: `INSERT OR REPLACE` keyed on `(model, query_hash)`.
The fresh row has NULL `ground_truth` and `correct`. -/
def record_prediction (qhash : String → String) (model query : String)
    (stated_confidence : ℚ) (prediction timestamp : String)
    (db : List PredRow) : List PredRow :=
  db.filter (fun r => !(keyed model (qhash query) r))
    ++ [⟨model, qhash query, stated_confidence, prediction, none, none, timestamp⟩]

/-- `record_outcome`: back-fills `ground_truth` and `correct` on every row
whose `query_hash` matches the query. -/
def record_outcome (qhash : String → String) (query ground_truth : String)
    (db : List PredRow) : List PredRow :=
  db.map (fun r =>
    if r.queryHash = qhash query then
      { r with ground_truth := some ground_truth,
               correct := some (check_correctness r.prediction ground_truth) }
    else r)

end CalibrationTracker

theorem filter_of_filter_not {α : Type} (p : α → Bool) (l : List α) :
    (l.filter (fun a => !(p a))).filter p = [] := by
  induction l with
  | nil => rfl
  | cons a t ih =>
    by_cases h : p a = true
    · simp [List.filter_cons, h, ih]
    · simp only [Bool.not_eq_true] at h
      simp [List.filter_cons, h, ih]

theorem filter_of_filter_not_disjoint {α : Type} (p q : α → Bool)
    (hdis : ∀ a, q a = true → p a = false) (l : List α) :
    (l.filter (fun a => !(p a))).filter q = l.filter q := by
  induction l with
  | nil => rfl
  | cons a t ih =>
    by_cases h : p a = true
    · have hq : q a = false := by
        by_cases hqa : q a = true
        · rw [hdis a hqa] at h
          exact absurd h (by simp)
        · simpa using hqa
      simp [List.filter_cons, h, hq, ih]
    · simp only [Bool.not_eq_true] at h
      simp [List.filter_cons, h, ih]

/-- C3: `record_prediction` keeps exactly one row for its `(model,
query_hash)` key — the fresh row — and leaves the rows of every other key
untouched (so a repeat for the same pair replaces rather than duplicates);
and `record_outcome` sets `ground_truth` and `correct` on every stored row
whose `query_hash` matches the query, whatever model wrote it. -/
theorem calibration_upsert_and_backfill (qhash : String → String)
    (db : List PredRow) (model query : String) (stated_confidence : ℚ)
    (prediction timestamp ground_truth : String) :
    ((CalibrationTracker.record_prediction qhash model query stated_confidence
        prediction timestamp db).filter
          (CalibrationTracker.keyed model (qhash query))
      = [⟨model, qhash query, stated_confidence, prediction, none, none, timestamp⟩])
    ∧ (∀ m2 h2, ¬(m2 = model ∧ h2 = qhash query) →
        (CalibrationTracker.record_prediction qhash model query stated_confidence
            prediction timestamp db).filter (CalibrationTracker.keyed m2 h2)
          = db.filter (CalibrationTracker.keyed m2 h2))
    ∧ (∀ r ∈ CalibrationTracker.record_outcome qhash query ground_truth db,
        r.queryHash = qhash query →
          r.ground_truth = some ground_truth
            ∧ r.correct = some (check_correctness r.prediction ground_truth)) := by
  refine ⟨?_, ?_, ?_⟩
  · unfold CalibrationTracker.record_prediction
    rw [List.filter_append, filter_of_filter_not]
    simp [CalibrationTracker.keyed]
  · intro m2 h2 hne
    unfold CalibrationTracker.record_prediction
    rw [List.filter_append]
    have hdis : ∀ r, CalibrationTracker.keyed m2 h2 r = true →
        CalibrationTracker.keyed model (qhash query) r = false := by
      intro r hr
      simp only [CalibrationTracker.keyed, decide_eq_true_eq] at hr
      simp only [CalibrationTracker.keyed, decide_eq_false_iff_not]
      intro hk
      exact hne ⟨hr.1.symm.trans hk.1, hr.2.symm.trans hk.2⟩
    rw [filter_of_filter_not_disjoint _ _ hdis]
    have hnew : CalibrationTracker.keyed m2 h2
        ⟨model, qhash query, stated_confidence, prediction, none, none, timestamp⟩ = false := by
      simp only [CalibrationTracker.keyed, decide_eq_false_iff_not]
      intro hk
      exact hne ⟨hk.1.symm, hk.2.symm⟩
    simp [hnew]
  · intro r hr hq
    unfold CalibrationTracker.record_outcome at hr
    rcases List.mem_map.mp hr with ⟨r0, hr0, hmap⟩
    by_cases h0 : r0.queryHash = qhash query
    · rw [if_pos h0] at hmap
      rw [← hmap]
      exact ⟨rfl, rfl⟩
    · rw [if_neg h0] at hmap
      rw [← hmap] at hq
      exact absurd hq h0

/-- C3 witness: a repeat prediction for ("m", "q") leaves exactly the fresh
row under that key, another key is untouched, and `record_outcome`
back-fills the row sharing the query hash. -/
theorem calibration_upsert_and_backfill_witness :
    ((CalibrationTracker.record_prediction (fun q => q) "m" "q" 1 "yes" "t1"
        [⟨"m", "q", 1/2, "old", none, none, "t0"⟩]).filter
          (CalibrationTracker.keyed "m" "q")
      = [⟨"m", "q", 1, "yes", none, none, "t1"⟩])
    ∧ ((CalibrationTracker.record_prediction (fun q => q) "m" "q" 1 "yes" "t1"
        [⟨"m", "q", 1/2, "old", none, none, "t0"⟩]).filter
          (CalibrationTracker.keyed "m2" "q")
      = [⟨"m", "q", 1/2, "old", none, none, "t0"⟩].filter
          (CalibrationTracker.keyed "m2" "q"))
    ∧ ((⟨"m", "q", 1, "yes", some "gt", some (check_correctness "yes" "gt"),
          "t1"⟩ : PredRow).ground_truth = some "gt"
        ∧ (⟨"m", "q", 1, "yes", some "gt", some (check_correctness "yes" "gt"),
            "t1"⟩ : PredRow).correct = some (check_correctness "yes" "gt")) := by
  have h := calibration_upsert_and_backfill (fun q => q)
    [⟨"m", "q", 1/2, "old", none, none, "t0"⟩] "m" "q" 1 "yes" "t1" "gt"
  have h2 := calibration_upsert_and_backfill (fun q => q)
    [⟨"m", "q", 1, "yes", none, none, "t1"⟩] "m" "q" 1 "yes" "t1" "gt"
  refine ⟨h.1, h.2.1 "m2" "q" (by decide), ?_⟩
  refine h2.2.2 ⟨"m", "q", 1, "yes", some "gt", some (check_correctness "yes" "gt"), "t1"⟩
    ?_ rfl
  show _ ∈ CalibrationTracker.record_outcome (fun q => q) "q" "gt"
    [⟨"m", "q", 1, "yes", none, none, "t1"⟩]
  exact List.Mem.head _

/-! ## Bradley–Terry scores (src/backend/evaluation.py, bradley_terry_scores)

The input list may contain exceptions (from `asyncio.gather` with
`return_exceptions=True`), which the `isinstance` check skips.  A Python
`ZeroDivisionError` escaping the function (float division by zero — raised
both by `(wins[r][s]+wins[s][r])/(scores[r]+scores[s])` when two scores sum
to zero and by the normalisation when the total is zero) is modelled by
`none`.  The scores dict is an association list in its Python insertion
order (the sorted response list). -/

inductive Winner
  | A
  | B
  | tie
deriving DecidableEq

/-- `PairwiseComparison` from src/backend/schemas.py. -/
structure PairwiseComparison where
  response_a : String
  response_b : String
  winner : Winner
  confidence : ℚ
  reasoning : String
deriving DecidableEq

/-- One element of the comparison list: a parsed comparison or an exception
object (skipped by the `isinstance` check). -/
inductive CompItem
  | valid (c : PairwiseComparison)
  | exc
deriving DecidableEq

/-- The response names one list element mentions. -/
def compNames : CompItem → List String
  | .valid c => [c.response_a, c.response_b]
  | .exc => []

/-- The sorted set of response names mentioned by the comparisons. -/
def btResponses (comparisons : List CompItem) : List String :=
  ((comparisons.flatMap compNames).toFinset).sort (· ≤ ·)

/-- One comparison's contribution to `wins[r][s]` (a tie pays half the
confidence in both directions). -/
def winContrib (r s : String) : CompItem → ℚ
  | .exc => 0
  | .valid c =>
    match c.winner with
    | .A => if c.response_a = r ∧ c.response_b = s then c.confidence else 0
    | .B => if c.response_b = r ∧ c.response_a = s then c.confidence else 0
    | .tie =>
      (if c.response_a = r ∧ c.response_b = s then c.confidence / 2 else 0)
        + (if c.response_b = r ∧ c.response_a = s then c.confidence / 2 else 0)

/-- The win matrix `wins[r][s]` accumulated over the comparison list. -/
def winsOf (comparisons : List CompItem) (r s : String) : ℚ :=
  (comparisons.map (winContrib r s)).sum

/-- The un-normalised updated scores of one Bradley–Terry iteration:
`new_score(r) = sum(wins[r]) / max(sum over s of pair-rate, 0.001)`. -/
def btNewScores (wins : String → String → ℚ) (scores : List (String × ℚ)) :
    List (String × ℚ) :=
  scores.map (fun rp =>
    (rp.1,
      (scores.map (fun sp => wins rp.1 sp.1)).sum
        / pymax ((scores.map (fun sp =>
            if sp.1 = rp.1 then 0
            else (wins rp.1 sp.1 + wins sp.1 rp.1) / (rp.2 + sp.2))).sum)
          (1 / 1000)))

/-- One iteration of the simplified Bradley–Terry update, on the scores
dict in its (fixed) response order.  `none` models the iteration raising
`ZeroDivisionError`: either some distinct pair of scores sums to zero
(inner division) or the normalisation total is zero. -/
def btStep (wins : String → String → ℚ) (scores : List (String × ℚ)) :
    Option (List (String × ℚ)) :=
  if scores.any (fun rp => scores.any (fun sp =>
      !(decide (sp.1 = rp.1)) && decide (rp.2 + sp.2 = 0))) then none
  else if ((btNewScores wins scores).map Prod.snd).sum = 0 then none
  else some ((btNewScores wins scores).map (fun rp =>
    (rp.1, rp.2 / ((btNewScores wins scores).map Prod.snd).sum)))

/-- The 20-iteration loop; an error in any iteration aborts the call. -/
def btIterate (wins : String → String → ℚ) :
    Nat → List (String × ℚ) → Option (List (String × ℚ))
  | 0, scores => some scores
  | n + 1, scores =>
    match btStep wins scores with
    | none => none
    | some next => btIterate wins n next

/-- `bradley_terry_scores` from src/backend/evaluation.py. -/
def bradley_terry_scores (comparisons : List CompItem) :
    Option (List (String × ℚ)) :=
  let responses := btResponses comparisons
  if responses.isEmpty then some []
  else btIterate (winsOf comparisons) 20 (responses.map (fun r => (r, 1)))

/-- C10: a comparison list mentioning no response at all (every element an
exception; in particular the empty list) yields the empty score dict, not
an error. -/
theorem bradley_terry_empty (comparisons : List CompItem)
    (h : ∀ c ∈ comparisons, c = CompItem.exc) :
    bradley_terry_scores comparisons = some [] := by
  have hnames : comparisons.flatMap compNames = [] := by
    induction comparisons with
    | nil => rfl
    | cons c t ih =>
      rw [List.flatMap_cons, h c (List.mem_cons_self _ _)]
      exact ih fun c0 hc0 => h c0 (List.mem_cons_of_mem _ hc0)
  unfold bradley_terry_scores btResponses
  rw [hnames, List.toFinset_nil, Finset.sort_empty]
  rfl

/-- C10 witness: the empty list and a pure-exception list both give `{}`. -/
theorem bradley_terry_empty_witness :
    bradley_terry_scores [] = some []
      ∧ bradley_terry_scores [CompItem.exc] = some [] :=
  ⟨bradley_terry_empty [] (by simp),
   bradley_terry_empty [CompItem.exc] (by simp)⟩

theorem strLe (a b : String) (h : a.toList ≤ b.toList) : a ≤ b :=
  String.le_iff_toList_le.mpr h

theorem btResponses_counterexample :
    btResponses [CompItem.valid ⟨"A", "B", Winner.A, 1, ""⟩,
        CompItem.valid ⟨"C", "D", Winner.A, 1, ""⟩]
      = ["A", "B", "C", "D"] := by
  unfold btResponses
  rw [show ([CompItem.valid ⟨"A", "B", Winner.A, 1, ""⟩,
      CompItem.valid ⟨"C", "D", Winner.A, 1, ""⟩].flatMap compNames)
      = ["A", "B", "C", "D"] from rfl]
  refine (List.toFinset_sort _ (by decide)).mpr ?_
  refine List.Pairwise.cons ?_ (List.Pairwise.cons ?_ (List.Pairwise.cons ?_
    (List.pairwise_singleton _ _)))
  · intro b hb
    fin_cases hb
    exacts [strLe _ _ (by decide), strLe _ _ (by decide), strLe _ _ (by decide)]
  · intro b hb
    fin_cases hb
    exacts [strLe _ _ (by decide), strLe _ _ (by decide)]
  · intro b hb
    fin_cases hb
    exacts [strLe _ _ (by decide)]

/-- C2 (counterexample): `bradley_terry_scores` does not return a normalised
score map for every non-empty comparison list.  For the two disjoint
full-confidence comparisons A>B and C>D the losers' scores are exactly 0
after the first iteration, and the second iteration divides by
`scores[B] + scores[D] = 0`: the Python code raises `ZeroDivisionError`
(float division by zero), modelled here by `none`. -/
theorem bradley_terry_counterexample :
    bradley_terry_scores [CompItem.valid ⟨"A", "B", Winner.A, 1, ""⟩,
        CompItem.valid ⟨"C", "D", Winner.A, 1, ""⟩] = none := by
  have hstep1 : btStep
      (winsOf [CompItem.valid ⟨"A", "B", Winner.A, 1, ""⟩,
        CompItem.valid ⟨"C", "D", Winner.A, 1, ""⟩])
      [("A", 1), ("B", 1), ("C", 1), ("D", 1)]
      = some [("A", 1 / 2), ("B", 0), ("C", 1 / 2), ("D", 0)] := by
    simp [btStep, btNewScores, winsOf, winContrib, pymax]
    norm_num
  have hstep2 : btStep
      (winsOf [CompItem.valid ⟨"A", "B", Winner.A, 1, ""⟩,
        CompItem.valid ⟨"C", "D", Winner.A, 1, ""⟩])
      [("A", 1 / 2), ("B", 0), ("C", 1 / 2), ("D", 0)] = none := by
    simp [btStep, btNewScores, winsOf, winContrib, pymax]
  unfold bradley_terry_scores
  rw [btResponses_counterexample]
  show btIterate _ 20 [("A", 1), ("B", 1), ("C", 1), ("D", 1)] = none
  unfold btIterate
  rw [hstep1]
  unfold btIterate
  rw [hstep2]

theorem btStep_sum_one {wins : String → String → ℚ}
    {scores out : List (String × ℚ)} (h : btStep wins scores = some out) :
    (out.map Prod.snd).sum = 1 := by
  unfold btStep at h
  split at h
  · exact Option.noConfusion h
  · split at h
    · exact Option.noConfusion h
    · rename_i htot
      rw [← Option.some.inj h, List.map_map]
      have hcomp : (Prod.snd ∘ fun rp : String × ℚ =>
          (rp.1, rp.2 / ((btNewScores wins scores).map Prod.snd).sum))
          = fun rp : String × ℚ =>
              rp.2 * (((btNewScores wins scores).map Prod.snd).sum)⁻¹ := by
        funext rp
        simp [div_eq_mul_inv]
      rw [hcomp, List.sum_map_mul_right]
      exact mul_inv_cancel₀ htot

theorem btIterate_out {wins : String → String → ℚ} :
    ∀ (n : Nat) (scores out : List (String × ℚ)), 0 < n →
      btIterate wins n scores = some out →
      ∃ prev, btStep wins prev = some out := by
  intro n
  induction n with
  | zero => exact fun scores out h => absurd h (by omega)
  | succ k ih =>
    intro scores out _ hit
    unfold btIterate at hit
    cases hs : btStep wins scores with
    | none => rw [hs] at hit; exact Option.noConfusion hit
    | some next =>
      rw [hs] at hit
      cases k with
      | zero =>
        unfold btIterate at hit
        exact ⟨scores, hs.trans (congrArg _ (Option.some.inj hit))⟩
      | succ k2 => exact ih next out (by omega) hit

theorem btResponses_not_empty {comparisons : List CompItem}
    {pc : PairwiseComparison} (hpc : CompItem.valid pc ∈ comparisons) :
    (btResponses comparisons).isEmpty = false := by
  have hmem : pc.response_a ∈ (comparisons.flatMap compNames).toFinset := by
    rw [List.mem_toFinset]
    exact List.mem_flatMap.mpr ⟨CompItem.valid pc, hpc, by simp [compNames]⟩
  unfold btResponses
  cases hs : ((comparisons.flatMap compNames).toFinset).sort (· ≤ ·) with
  | nil =>
    exfalso
    have hin := (Finset.mem_sort (α := String) (· ≤ ·)).mpr hmem
    rw [hs] at hin
    simp at hin
  | cons a t => rfl

/-- C2 (amended): for every comparison list containing at least one genuine
pairwise comparison, *whenever `bradley_terry_scores` returns* (it can
instead raise `ZeroDivisionError`, cf. the counterexample) the returned
scores sum to exactly 1 after the final normalisation; and the entire
result — including whether it errors — is invariant under permutation of
the comparison list. -/
theorem bradley_terry_sum_one_and_order_invariant
    (comparisons : List CompItem) (pc : PairwiseComparison)
    (hpc : CompItem.valid pc ∈ comparisons) :
    (∀ m, bradley_terry_scores comparisons = some m → (m.map Prod.snd).sum = 1)
      ∧ ∀ comparisons', comparisons.Perm comparisons' →
          bradley_terry_scores comparisons = bradley_terry_scores comparisons' := by
  constructor
  · intro m hm
    unfold bradley_terry_scores at hm
    rw [if_neg (by rw [btResponses_not_empty hpc]; exact Bool.false_ne_true)] at hm
    obtain ⟨prev, hprev⟩ := btIterate_out 20 _ m (by omega) hm
    exact btStep_sum_one hprev
  · intro comparisons' hperm
    have hresp : btResponses comparisons = btResponses comparisons' := by
      unfold btResponses
      rw [List.toFinset_eq_of_perm _ _ (hperm.flatMap_right compNames)]
    have hwins : winsOf comparisons = winsOf comparisons' := by
      funext r s
      exact (hperm.map (winContrib r s)).sum_eq
    unfold bradley_terry_scores
    rw [hresp, hwins]

theorem btIterate_fix {wins : String → String → ℚ} {s : List (String × ℚ)}
    (h : btStep wins s = some s) : ∀ n, btIterate wins n s = some s := by
  intro n
  induction n with
  | zero => rfl
  | succ k ih =>
    unfold btIterate
    rw [h]
    exact ih

theorem btResponses_pair :
    btResponses [CompItem.valid ⟨"A", "B", Winner.A, 1, ""⟩, CompItem.exc]
      = ["A", "B"] := by
  unfold btResponses
  rw [show ([CompItem.valid ⟨"A", "B", Winner.A, 1, ""⟩,
      CompItem.exc].flatMap compNames) = ["A", "B"] from rfl]
  refine (List.toFinset_sort _ (by decide)).mpr ?_
  refine List.Pairwise.cons ?_ (List.pairwise_singleton _ _)
  intro b hb
  fin_cases hb
  exacts [strLe _ _ (by decide)]

/-- C2 witness: one full-confidence comparison A>B (plus one skipped
exception object).  The call returns scores `{A: 1, B: 0}` summing to 1,
and reordering the comparison list leaves the result unchanged. -/
theorem bradley_terry_sum_one_and_order_invariant_witness :
    bradley_terry_scores [CompItem.valid ⟨"A", "B", Winner.A, 1, ""⟩, CompItem.exc]
        = some [("A", 1), ("B", 0)]
      ∧ (([("A", (1 : ℚ)), ("B", 0)].map Prod.snd).sum = 1)
      ∧ bradley_terry_scores [CompItem.valid ⟨"A", "B", Winner.A, 1, ""⟩, CompItem.exc]
          = bradley_terry_scores [CompItem.exc,
              CompItem.valid ⟨"A", "B", Winner.A, 1, ""⟩] := by
  have h := bradley_terry_sum_one_and_order_invariant
    [CompItem.valid ⟨"A", "B", Winner.A, 1, ""⟩, CompItem.exc]
    ⟨"A", "B", Winner.A, 1, ""⟩ (List.mem_cons_self _ _)
  have hstep0 : btStep
      (winsOf [CompItem.valid ⟨"A", "B", Winner.A, 1, ""⟩, CompItem.exc])
      [("A", 1), ("B", 1)] = some [("A", 1), ("B", 0)] := by
    simp [btStep, btNewScores, winsOf, winContrib, pymax]
    norm_num
  have hfix : btStep
      (winsOf [CompItem.valid ⟨"A", "B", Winner.A, 1, ""⟩, CompItem.exc])
      [("A", 1), ("B", 0)] = some [("A", 1), ("B", 0)] := by
    simp [btStep, btNewScores, winsOf, winContrib, pymax]
    norm_num
  have hbt : bradley_terry_scores
      [CompItem.valid ⟨"A", "B", Winner.A, 1, ""⟩, CompItem.exc]
      = some [("A", 1), ("B", 0)] := by
    unfold bradley_terry_scores
    rw [btResponses_pair]
    show btIterate _ 20 [("A", 1), ("B", 1)] = some [("A", 1), ("B", 0)]
    unfold btIterate
    rw [hstep0]
    exact btIterate_fix hfix 19
  exact ⟨hbt, h.1 _ hbt, h.2 _ (List.Perm.swap _ _ _)⟩
